import Mathlib

/-
  Shallow embedding of the Black-Scholes pricing module (Model.py):
  the normal-distribution primitives, the validated d1/d2 computation,
  the closed-form price and Greeks, and the hybrid Newton/bisection
  implied-volatility solver.  Python floats are modelled by real numbers,
  `raise ValueError(msg)` by `Except.error (PyError.valueError msg)`, and
  the two bounded `for` loops by structural recursion on a `Nat` fuel
  equal to the loop bound.
-/

noncomputable section

namespace BlackScholes

/-- Result of `raise ValueError(msg)` in the Python source. -/
inductive PyError where
  | valueError (msg : String)
deriving DecidableEq

/-- The Gauss error function, the mathematical meaning of Python's
`math.erf`. -/
def erf (x : ℝ) : ℝ := 2 / Real.sqrt Real.pi * ∫ t in (0:ℝ)..x, Real.exp (-t ^ 2)

/-- Standard normal density, embedding `_phi`. -/
def phi (x : ℝ) : ℝ := Real.exp (-0.5 * x * x) / Real.sqrt (2 * Real.pi)

/-- Standard normal CDF via the error function, embedding `_Phi`. -/
def Phi (x : ℝ) : ℝ := 0.5 * (1.0 + erf (x / Real.sqrt 2))

/-- Embedding of `_d1_d2`: the shared validation gate plus the d1/d2
computation. -/
def d1_d2 (S K T r sigma q : ℝ) : Except PyError (ℝ × ℝ) :=
  if S ≤ 0 ∨ K ≤ 0 ∨ T ≤ 0 ∨ sigma ≤ 0 then
    .error (.valueError "S, K, T, sigma must be > 0.")
  else
    let vsqrtT := sigma * Real.sqrt T
    let d1 := (Real.log (S / K) + (r - q + 0.5 * sigma * sigma) * T) / vsqrtT
    let d2 := d1 - vsqrtT
    .ok (d1, d2)

/-- Embedding of `bs_price`. -/
def bs_price (S K T r sigma q : ℝ) (option : String) : Except PyError ℝ :=
  match d1_d2 S K T r sigma q with
  | .error e => .error e
  | .ok (d1, d2) =>
    let disc_r := Real.exp (-r * T)
    let disc_q := Real.exp (-q * T)
    if option = "call" then
      .ok (S * disc_q * Phi d1 - K * disc_r * Phi d2)
    else if option = "put" then
      .ok (K * disc_r * Phi (-d2) - S * disc_q * Phi (-d1))
    else
      .error (.valueError "option must be call or put")

/-- The five-field Greeks record of the Python dataclass. -/
structure Greeks where
  delta : ℝ
  gamma : ℝ
  vega : ℝ
  theta : ℝ
  rho : ℝ
deriving DecidableEq

/-- Embedding of `bs_greeks`.  Note that the Python source sends every
option string other than `"call"` into the put branch. -/
def bs_greeks (S K T r sigma q : ℝ) (option : String) : Except PyError Greeks :=
  match d1_d2 S K T r sigma q with
  | .error e => .error e
  | .ok (d1, d2) =>
    let disc_r := Real.exp (-r * T)
    let disc_q := Real.exp (-q * T)
    let pdf := phi d1
    let gamma := disc_q * pdf / (S * sigma * Real.sqrt T)
    let vega := S * disc_q * pdf * Real.sqrt T
    if option = "call" then
      .ok { delta := disc_q * Phi d1
            gamma := gamma
            vega := vega
            theta := -S * disc_q * pdf * sigma / (2 * Real.sqrt T)
                     - r * K * disc_r * Phi d2 + q * S * disc_q * Phi d1
            rho := K * T * disc_r * Phi d2 }
    else
      .ok { delta := disc_q * (Phi d1 - 1.0)
            gamma := gamma
            vega := vega
            theta := -S * disc_q * pdf * sigma / (2 * Real.sqrt T)
                     + r * K * disc_r * Phi (-d2) - q * S * disc_q * Phi (-d1)
            rho := -K * T * disc_r * Phi (-d2) }

/-- The Newton loop of `implied_vol` (lines 62-70 of the source), with the
remaining iteration count as fuel.  `.ok (some v)` models `return v`,
`.ok none` models falling through to the bisection phase (loop exhaustion
or the `vega < 1e-12` break), `.error e` a propagating `ValueError`. -/
def newtonPhase (target_price S K T r q : ℝ) (option : String) (tol : ℝ) :
    ℝ → Nat → Except PyError (Option ℝ)
  | _, 0 => .ok none
  | sigma, n + 1 =>
    match bs_price S K T r sigma q option with
    | .error e => .error e
    | .ok price =>
      if |price - target_price| < tol then .ok (some (max 1e-12 sigma))
      else
        match bs_greeks S K T r sigma q option with
        | .error e => .error e
        | .ok g =>
          if g.vega < 1e-12 then .ok none
          else newtonPhase target_price S K T r q option tol
            (min 5.0 (max 1e-6 (sigma - (price - target_price) / g.vega))) n

/-- The bisection fallback loop of `implied_vol` (lines 72-82), with the
remaining iteration count as fuel; the fuel-0 case is the final
`return 0.5 * (lo + hi)` after the loop. -/
def bisect (target_price S K T r q : ℝ) (option : String) (tol : ℝ) :
    ℝ → ℝ → Nat → Except PyError ℝ
  | lo, hi, 0 => .ok (0.5 * (lo + hi))
  | lo, hi, n + 1 =>
    match bs_price S K T r (0.5 * (lo + hi)) q option with
    | .error e => .error e
    | .ok pmid =>
      if |pmid - target_price| < tol then .ok (0.5 * (lo + hi))
      else if pmid > target_price then
        bisect target_price S K T r q option tol lo (0.5 * (lo + hi)) n
      else
        bisect target_price S K T r q option tol (0.5 * (lo + hi)) hi n

/-- Embedding of `implied_vol`: the Newton phase starting from
`max 1e-6 seed` with `max_iter` fuel, falling through to a 200-step
bisection on the bracket `[1e-6, 5.0]`.  The Python defaults are
`seed = 0.2`, `tol = 1e-8`, `max_iter = 100`. -/
def implied_vol (target_price S K T r q : ℝ) (option : String)
    (seed tol : ℝ) (max_iter : Nat) : Except PyError ℝ :=
  match newtonPhase target_price S K T r q option tol (max 1e-6 seed) max_iter with
  | .error e => .error e
  | .ok (some v) => .ok v
  | .ok none => bisect target_price S K T r q option tol 1e-6 5.0 200

/-- Number of `bs_price` evaluations performed by the Newton loop,
mirroring `newtonPhase` step by step. -/
def newtonPriceEvals (target_price S K T r q : ℝ) (option : String) (tol : ℝ) :
    ℝ → Nat → Nat
  | _, 0 => 0
  | sigma, n + 1 =>
    match bs_price S K T r sigma q option with
    | .error _ => 1
    | .ok price =>
      if |price - target_price| < tol then 1
      else
        match bs_greeks S K T r sigma q option with
        | .error _ => 1
        | .ok g =>
          if g.vega < 1e-12 then 1
          else 1 + newtonPriceEvals target_price S K T r q option tol
            (min 5.0 (max 1e-6 (sigma - (price - target_price) / g.vega))) n

/-- Number of `bs_price` evaluations performed by the bisection loop,
mirroring `bisect` step by step. -/
def bisectPriceEvals (target_price S K T r q : ℝ) (option : String) (tol : ℝ) :
    ℝ → ℝ → Nat → Nat
  | _, _, 0 => 0
  | lo, hi, n + 1 =>
    match bs_price S K T r (0.5 * (lo + hi)) q option with
    | .error _ => 1
    | .ok pmid =>
      if |pmid - target_price| < tol then 1
      else if pmid > target_price then
        1 + bisectPriceEvals target_price S K T r q option tol lo (0.5 * (lo + hi)) n
      else
        1 + bisectPriceEvals target_price S K T r q option tol (0.5 * (lo + hi)) hi n

/-- Total number of `bs_price` evaluations performed by `implied_vol`:
those of the Newton phase, plus those of the bisection phase when the
Newton phase falls through. -/
def impliedVolPriceEvals (target_price S K T r q : ℝ) (option : String)
    (seed tol : ℝ) (max_iter : Nat) : Nat :=
  newtonPriceEvals target_price S K T r q option tol (max 1e-6 seed) max_iter +
    match newtonPhase target_price S K T r q option tol (max 1e-6 seed) max_iter with
    | .ok none => bisectPriceEvals target_price S K T r q option tol 1e-6 5.0 200
    | _ => 0

/-- Closed form of `d1` at valid inputs, as a plain real function. -/
def d1f (S K T r sigma q : ℝ) : ℝ :=
  (Real.log (S / K) + (r - q + 0.5 * sigma * sigma) * T) / (sigma * Real.sqrt T)

/-- Value of `bs_price` at valid inputs for a call, as a plain real
function. -/
def callValue (S K T r sigma q : ℝ) : ℝ :=
  S * Real.exp (-q * T) * Phi (d1f S K T r sigma q)
    - K * Real.exp (-r * T) * Phi (d1f S K T r sigma q - sigma * Real.sqrt T)

/-- Value of `bs_price` at valid inputs for a put, as a plain real
function. -/
def putValue (S K T r sigma q : ℝ) : ℝ :=
  K * Real.exp (-r * T) * Phi (-(d1f S K T r sigma q - sigma * Real.sqrt T))
    - S * Real.exp (-q * T) * Phi (-(d1f S K T r sigma q))

/-! ### Reduction lemmas for valid inputs -/

lemma not_gate {S K T sigma : ℝ} (hS : 0 < S) (hK : 0 < K) (hT : 0 < T)
    (hsig : 0 < sigma) : ¬(S ≤ 0 ∨ K ≤ 0 ∨ T ≤ 0 ∨ sigma ≤ 0) := by
  push_neg
  exact ⟨hS, hK, hT, hsig⟩

lemma d1_d2_of_pos (S K T r sigma q : ℝ) (hS : 0 < S) (hK : 0 < K) (hT : 0 < T)
    (hsig : 0 < sigma) :
    d1_d2 S K T r sigma q =
      .ok (d1f S K T r sigma q, d1f S K T r sigma q - sigma * Real.sqrt T) := by
  simp only [d1_d2, if_neg (not_gate hS hK hT hsig), d1f]

lemma d1_d2_of_gate (S K T r sigma q : ℝ) (h : S ≤ 0 ∨ K ≤ 0 ∨ T ≤ 0 ∨ sigma ≤ 0) :
    d1_d2 S K T r sigma q = .error (.valueError "S, K, T, sigma must be > 0.") := by
  simp only [d1_d2, if_pos h]

lemma bs_price_call (S K T r sigma q : ℝ) (hS : 0 < S) (hK : 0 < K) (hT : 0 < T)
    (hsig : 0 < sigma) :
    bs_price S K T r sigma q "call" = .ok (callValue S K T r sigma q) := by
  simp only [bs_price, d1_d2_of_pos S K T r sigma q hS hK hT hsig, callValue]
  norm_num

lemma bs_price_put (S K T r sigma q : ℝ) (hS : 0 < S) (hK : 0 < K) (hT : 0 < T)
    (hsig : 0 < sigma) :
    bs_price S K T r sigma q "put" = .ok (putValue S K T r sigma q) := by
  simp only [bs_price, d1_d2_of_pos S K T r sigma q hS hK hT hsig, putValue]
  norm_num
  intro h
  exact absurd h (by decide)

/-! ### Facts about the normal CDF -/

lemma erf_neg (x : ℝ) : erf (-x) = -erf x := by
  unfold erf
  have h : (∫ t in (0:ℝ)..x, Real.exp (-(-t) ^ 2)) =
      ∫ t in (-x)..(-(0:ℝ)), Real.exp (-t ^ 2) :=
    intervalIntegral.integral_comp_neg (fun t => Real.exp (-t ^ 2))
  simp only [neg_sq, neg_zero] at h
  rw [intervalIntegral.integral_symm (-x) 0, ← h]
  ring

lemma Phi_neg (x : ℝ) : Phi (-x) = 1 - Phi x := by
  unfold Phi
  rw [neg_div, erf_neg]
  ring

lemma phi_pos (x : ℝ) : 0 < phi x := by
  unfold phi
  have h2 : (0:ℝ) < 2 * Real.pi := by positivity
  exact div_pos (Real.exp_pos _) (Real.sqrt_pos.mpr h2)

lemma hasDerivAt_erf (x : ℝ) :
    HasDerivAt erf (2 / Real.sqrt Real.pi * Real.exp (-x ^ 2)) x := by
  have hc : Continuous fun t : ℝ => Real.exp (-t ^ 2) := by
    have h : Continuous fun t : ℝ => -t ^ 2 := by continuity
    exact Real.continuous_exp.comp h
  have h := intervalIntegral.integral_hasDerivAt_right
    (hc.intervalIntegrable 0 x)
    (hc.stronglyMeasurableAtFilter MeasureTheory.volume (nhds x))
    hc.continuousAt
  have h2 := h.const_mul (2 / Real.sqrt Real.pi)
  simpa [erf] using h2

lemma hasDerivAt_Phi (x : ℝ) : HasDerivAt Phi (phi x) x := by
  have hs2 : (0:ℝ) < Real.sqrt 2 := Real.sqrt_pos.mpr (by norm_num)
  have h1 : HasDerivAt (fun u : ℝ => u / Real.sqrt 2) (1 / Real.sqrt 2) x := by
    simpa using (hasDerivAt_id x).div_const (Real.sqrt 2)
  have h2 := (hasDerivAt_erf (x / Real.sqrt 2)).comp x h1
  have h3 := (h2.const_add (1.0:ℝ)).const_mul (0.5:ℝ)
  have key : phi x =
      0.5 * (2 / Real.sqrt Real.pi * Real.exp (-(x / Real.sqrt 2) ^ 2) * (1 / Real.sqrt 2)) := by
    have hx2 : -(x / Real.sqrt 2) ^ 2 = -0.5 * x * x := by
      rw [div_pow, Real.sq_sqrt (by norm_num : (0:ℝ) ≤ 2)]
      ring
    have hsqrt : Real.sqrt (2 * Real.pi) = Real.sqrt 2 * Real.sqrt Real.pi :=
      Real.sqrt_mul (by norm_num) _
    have hpi : Real.sqrt Real.pi ≠ 0 := ne_of_gt (Real.sqrt_pos.mpr Real.pi_pos)
    simp only [phi, hx2, hsqrt]
    field_simp
    ring
  rw [key]
  simpa [Phi, Function.comp] using h3

/-- Closed form of `d1` as a Laurent polynomial in sigma, used for the
derivative computation. -/
lemma d1f_eq (S K T r q s : ℝ) (hT : 0 < T) (hs : s ≠ 0) :
    d1f S K T r s q =
      ((Real.log (S / K) + (r - q) * T) / Real.sqrt T) / s + (0.5 * Real.sqrt T) * s := by
  have htt : Real.sqrt T * Real.sqrt T = T := Real.mul_self_sqrt hT.le
  have hsT : Real.sqrt T ≠ 0 := ne_of_gt (Real.sqrt_pos.mpr hT)
  simp only [d1f]
  rw [show (r - q + 0.5 * s * s) * T = (r - q + 0.5 * s * s) * (Real.sqrt T * Real.sqrt T) by
    rw [htt]]
  rw [show (r - q) * T = (r - q) * (Real.sqrt T * Real.sqrt T) by rw [htt]]
  field_simp
  ring_nf
  rw [show Real.sqrt T ^ 3 = T * Real.sqrt T by rw [pow_succ, pow_two, htt]]
  ring

/-- The identity `S e^{-qT} phi(d1) = K e^{-rT} phi(d2)` behind the vega
formula. -/
lemma price_vega_identity (S K T r q sigma : ℝ) (hS : 0 < S) (hK : 0 < K)
    (hT : 0 < T) (hsig : sigma ≠ 0) :
    S * Real.exp (-q * T) * phi (d1f S K T r sigma q) =
      K * Real.exp (-r * T) * phi (d1f S K T r sigma q - sigma * Real.sqrt T) := by
  have htt : Real.sqrt T * Real.sqrt T = T := Real.mul_self_sqrt hT.le
  have hsT : Real.sqrt T ≠ 0 := ne_of_gt (Real.sqrt_pos.mpr hT)
  set d1 := d1f S K T r sigma q with hd1
  have hmul : d1 * (sigma * Real.sqrt T) =
      Real.log (S / K) + (r - q + 0.5 * sigma * sigma) * T := by
    rw [hd1]
    simp only [d1f]
    exact div_mul_cancel₀ _ (mul_ne_zero hsig hsT)
  have key : -0.5 * d1 * d1 =
      -0.5 * (d1 - sigma * Real.sqrt T) * (d1 - sigma * Real.sqrt T)
        - (Real.log (S / K) + (r - q) * T) := by
    linear_combination (-1 : ℝ) * hmul + (0.5 * sigma * sigma) * htt
  simp only [phi]
  rw [key, Real.exp_sub]
  have hM : Real.exp (Real.log (S / K) + (r - q) * T) =
      S / K * Real.exp ((r - q) * T) := by
    rw [Real.exp_add, Real.exp_log (div_pos hS hK)]
  have hexp : Real.exp (-q * T) = Real.exp (-r * T) * Real.exp ((r - q) * T) := by
    rw [← Real.exp_add]
    ring_nf
  rw [hM, hexp]
  have h2pi : Real.sqrt (2 * Real.pi) ≠ 0 := by positivity
  field_simp
  ring

/-- Derivative of the call price in sigma: the vega
`K e^{-rT} phi(d2) sqrt(T)` (equal to `S e^{-qT} phi(d1) sqrt(T)` by the
vega identity). -/
lemma hasDerivAt_callValue (S K T r q : ℝ) (hS : 0 < S) (hK : 0 < K) (hT : 0 < T)
    {sigma : ℝ} (hsig : 0 < sigma) :
    HasDerivAt (fun s => callValue S K T r s q)
      (K * Real.exp (-r * T) * phi (d1f S K T r sigma q - sigma * Real.sqrt T) * Real.sqrt T)
      sigma := by
  have hsT : (0:ℝ) < Real.sqrt T := Real.sqrt_pos.mpr hT
  set c1 := (Real.log (S / K) + (r - q) * T) / Real.sqrt T with hc1
  set c2 := (0.5 : ℝ) * Real.sqrt T with hc2
  have hg : HasDerivAt (fun u : ℝ => c1 / u + c2 * u) (-(c1 / sigma ^ 2) + c2) sigma := by
    have h1 : HasDerivAt (fun u : ℝ => c1 / u) (-(c1 / sigma ^ 2)) sigma := by
      have h := (hasDerivAt_inv (ne_of_gt hsig)).const_mul c1
      simpa [div_eq_mul_inv, mul_neg] using h
    have h2 : HasDerivAt (fun u : ℝ => c2 * u) c2 sigma := by
      simpa using (hasDerivAt_id sigma).const_mul c2
    exact h1.add h2
  have hg2 : HasDerivAt (fun u : ℝ => c1 / u + c2 * u - u * Real.sqrt T)
      (-(c1 / sigma ^ 2) + c2 - Real.sqrt T) sigma := by
    have h3 : HasDerivAt (fun u : ℝ => u * Real.sqrt T) (Real.sqrt T) sigma := by
      simpa using (hasDerivAt_id sigma).mul_const (Real.sqrt T)
    exact hg.sub h3
  have hP1 : HasDerivAt (fun u : ℝ => Phi (c1 / u + c2 * u))
      (phi (c1 / sigma + c2 * sigma) * (-(c1 / sigma ^ 2) + c2)) sigma := by
    have h := (hasDerivAt_Phi (c1 / sigma + c2 * sigma)).comp sigma hg
    simpa [Function.comp] using h
  have hP2 : HasDerivAt (fun u : ℝ => Phi (c1 / u + c2 * u - u * Real.sqrt T))
      (phi (c1 / sigma + c2 * sigma - sigma * Real.sqrt T)
        * (-(c1 / sigma ^ 2) + c2 - Real.sqrt T)) sigma := by
    have h := (hasDerivAt_Phi (c1 / sigma + c2 * sigma - sigma * Real.sqrt T)).comp sigma hg2
    simpa [Function.comp] using h
  have hG : HasDerivAt
      (fun u : ℝ => S * Real.exp (-q * T) * Phi (c1 / u + c2 * u)
        - K * Real.exp (-r * T) * Phi (c1 / u + c2 * u - u * Real.sqrt T))
      (S * Real.exp (-q * T) * (phi (c1 / sigma + c2 * sigma) * (-(c1 / sigma ^ 2) + c2))
        - K * Real.exp (-r * T) * (phi (c1 / sigma + c2 * sigma - sigma * Real.sqrt T)
          * (-(c1 / sigma ^ 2) + c2 - Real.sqrt T))) sigma :=
    (hP1.const_mul _).sub (hP2.const_mul _)
  have hd1s : d1f S K T r sigma q = c1 / sigma + c2 * sigma := by
    rw [hc1, hc2]
    exact d1f_eq S K T r q sigma hT (ne_of_gt hsig)
  have hident := price_vega_identity S K T r q sigma hS hK hT (ne_of_gt hsig)
  rw [hd1s] at hident
  have hEq : (fun u : ℝ => callValue S K T r u q) =ᶠ[nhds sigma]
      (fun u : ℝ => S * Real.exp (-q * T) * Phi (c1 / u + c2 * u)
        - K * Real.exp (-r * T) * Phi (c1 / u + c2 * u - u * Real.sqrt T)) := by
    apply Filter.eventuallyEq_of_mem (Ioi_mem_nhds hsig)
    intro u hu
    have hu0 : (u:ℝ) ≠ 0 := ne_of_gt hu
    simp only [callValue]
    rw [d1f_eq S K T r q u hT hu0]
  have hres := hG.congr_of_eventuallyEq hEq
  convert hres using 1
  rw [hd1s]
  linear_combination (c1 / sigma ^ 2 - c2) * hident

lemma callValue_strictMonoOn (S K T r q : ℝ) (hS : 0 < S) (hK : 0 < K) (hT : 0 < T) :
    StrictMonoOn (fun s => callValue S K T r s q) (Set.Ioi (0:ℝ)) := by
  apply strictMonoOn_of_deriv_pos (convex_Ioi 0)
  · intro s hs
    exact (hasDerivAt_callValue S K T r q hS hK hT hs).continuousAt.continuousWithinAt
  · intro s hs
    rw [interior_Ioi] at hs
    rw [(hasDerivAt_callValue S K T r q hS hK hT hs).deriv]
    have h1 : (0:ℝ) < K * Real.exp (-r * T) := by positivity
    have h2 := phi_pos (d1f S K T r s q - s * Real.sqrt T)
    have h3 : (0:ℝ) < Real.sqrt T := Real.sqrt_pos.mpr hT
    exact mul_pos (mul_pos h1 h2) h3

/-- Exact put-call parity at the level of the closed-form values. -/
lemma putValue_eq (S K T r sigma q : ℝ) :
    putValue S K T r sigma q =
      callValue S K T r sigma q - (S * Real.exp (-q * T) - K * Real.exp (-r * T)) := by
  simp only [putValue, callValue, Phi_neg]
  ring

lemma putValue_strictMonoOn (S K T r q : ℝ) (hS : 0 < S) (hK : 0 < K) (hT : 0 < T) :
    StrictMonoOn (fun s => putValue S K T r s q) (Set.Ioi (0:ℝ)) := by
  intro a ha b hb hab
  have h := callValue_strictMonoOn S K T r q hS hK hT ha hb hab
  simp only [putValue_eq]
  simp only at h
  linarith

/-! ### Step equations and invariants of the solver -/

lemma newtonPhase_succ (target_price S K T r q : ℝ) (option : String)
    (tol sigma : ℝ) (n : Nat) :
    newtonPhase target_price S K T r q option tol sigma (n + 1) =
      match bs_price S K T r sigma q option with
      | .error e => .error e
      | .ok price =>
        if |price - target_price| < tol then .ok (some (max 1e-12 sigma))
        else
          match bs_greeks S K T r sigma q option with
          | .error e => .error e
          | .ok g =>
            if g.vega < 1e-12 then .ok none
            else newtonPhase target_price S K T r q option tol
              (min 5.0 (max 1e-6 (sigma - (price - target_price) / g.vega))) n := rfl

lemma bisect_succ (target_price S K T r q : ℝ) (option : String)
    (tol lo hi : ℝ) (n : Nat) :
    bisect target_price S K T r q option tol lo hi (n + 1) =
      match bs_price S K T r (0.5 * (lo + hi)) q option with
      | .error e => .error e
      | .ok pmid =>
        if |pmid - target_price| < tol then .ok (0.5 * (lo + hi))
        else if pmid > target_price then
          bisect target_price S K T r q option tol lo (0.5 * (lo + hi)) n
        else
          bisect target_price S K T r q option tol (0.5 * (lo + hi)) hi n := rfl

/-- Any value returned by the Newton phase from a guess inside
`[1e-6, 5.0]` stays inside `[1e-6, 5.0]`. -/
lemma newtonPhase_ok_mem (target_price S K T r q : ℝ) (option : String) (tol : ℝ) :
    ∀ n sigma, 1e-6 ≤ sigma → sigma ≤ 5.0 →
      ∀ v, newtonPhase target_price S K T r q option tol sigma n = .ok (some v) →
        1e-6 ≤ v ∧ v ≤ 5.0 := by
  intro n
  induction n with
  | zero =>
    intro sigma h1 h2 v hv
    simp [newtonPhase] at hv
  | succ n ih =>
    intro sigma h1 h2 v hv
    rw [newtonPhase_succ] at hv
    cases hp : bs_price S K T r sigma q option with
    | error e => rw [hp] at hv; simp at hv
    | ok price =>
      rw [hp] at hv
      simp only at hv
      split at hv
      · have hv' : max 1e-12 sigma = v := by
          have := hv
          simp at this
          exact this
        rw [max_eq_right (le_trans (by norm_num) h1)] at hv'
        exact hv' ▸ ⟨h1, h2⟩
      · cases hg : bs_greeks S K T r sigma q option with
        | error e => rw [hg] at hv; simp at hv
        | ok g =>
          rw [hg] at hv
          simp only at hv
          split at hv
          · simp at hv
          · exact ih _ (le_min (by norm_num) (le_max_left _ _)) (min_le_left _ _) v hv

/-- Any value returned by the bisection phase from a bracket inside
`(0, 5.0]` stays inside `(0, 5.0]`. -/
lemma bisect_ok_mem (target_price S K T r q : ℝ) (option : String) (tol : ℝ) :
    ∀ n lo hi, 0 < lo → lo ≤ hi → hi ≤ 5.0 →
      ∀ v, bisect target_price S K T r q option tol lo hi n = .ok v →
        0 < v ∧ v ≤ 5.0 := by
  intro n
  induction n with
  | zero =>
    intro lo hi h0 hlh hh v hv
    simp only [bisect, Except.ok.injEq] at hv
    constructor <;> [linarith [hv]; linarith [hv]]
  | succ n ih =>
    intro lo hi h0 hlh hh v hv
    rw [bisect_succ] at hv
    cases hp : bs_price S K T r (0.5 * (lo + hi)) q option with
    | error e => rw [hp] at hv; simp at hv
    | ok pmid =>
      rw [hp] at hv
      simp only at hv
      split at hv
      · simp only [Except.ok.injEq] at hv
        constructor <;> [linarith [hv]; linarith [hv]]
      · split at hv
        · exact ih lo (0.5 * (lo + hi)) h0 (by linarith) (by linarith) v hv
        · exact ih (0.5 * (lo + hi)) hi (by linarith) (by linarith) hh v hv

/-- The Newton loop performs at most `n` pricing evaluations where `n` is
its fuel. -/
lemma newtonPriceEvals_le (target_price S K T r q : ℝ) (option : String) (tol : ℝ) :
    ∀ n sigma, newtonPriceEvals target_price S K T r q option tol sigma n ≤ n := by
  intro n
  induction n with
  | zero => intro sigma; simp [newtonPriceEvals]
  | succ n ih =>
    intro sigma
    show (match bs_price S K T r sigma q option with
      | .error _ => 1
      | .ok price =>
        if |price - target_price| < tol then 1
        else
          match bs_greeks S K T r sigma q option with
          | .error _ => 1
          | .ok g =>
            if g.vega < 1e-12 then 1
            else 1 + newtonPriceEvals target_price S K T r q option tol
              (min 5.0 (max 1e-6 (sigma - (price - target_price) / g.vega))) n) ≤ n + 1
    cases bs_price S K T r sigma q option with
    | error e => dsimp only; omega
    | ok price =>
      dsimp only
      split
      · omega
      · cases bs_greeks S K T r sigma q option with
        | error e => dsimp only; omega
        | ok g =>
          dsimp only
          split
          · omega
          · have h := ih (min 5.0 (max 1e-6 (sigma - (price - target_price) / g.vega)))
            exact le_trans (Nat.add_le_add_left h 1) (by omega)

/-- The bisection loop performs at most `n` pricing evaluations where `n`
is its fuel. -/
lemma bisectPriceEvals_le (target_price S K T r q : ℝ) (option : String) (tol : ℝ) :
    ∀ n lo hi, bisectPriceEvals target_price S K T r q option tol lo hi n ≤ n := by
  intro n
  induction n with
  | zero => intro lo hi; simp [bisectPriceEvals]
  | succ n ih =>
    intro lo hi
    show (match bs_price S K T r (0.5 * (lo + hi)) q option with
      | .error _ => 1
      | .ok pmid =>
        if |pmid - target_price| < tol then 1
        else if pmid > target_price then
          1 + bisectPriceEvals target_price S K T r q option tol lo (0.5 * (lo + hi)) n
        else
          1 + bisectPriceEvals target_price S K T r q option tol (0.5 * (lo + hi)) hi n) ≤ n + 1
    cases bs_price S K T r (0.5 * (lo + hi)) q option with
    | error e => dsimp only; omega
    | ok pmid =>
      dsimp only
      split
      · omega
      · split
        · have h := ih lo (0.5 * (lo + hi))
          exact le_trans (Nat.add_le_add_left h 1) (by omega)
        · have h := ih (0.5 * (lo + hi)) hi
          exact le_trans (Nat.add_le_add_left h 1) (by omega)

/-- When the very first pricing evaluation reproduces the target exactly,
`implied_vol` returns the (floored) seed at once. -/
lemma implied_vol_first_hit (target_price S K T r q seed tol : ℝ) (option : String)
    (m : Nat) (hseed : 1e-6 ≤ seed)
    (hp : bs_price S K T r seed q option = .ok target_price) (htol : 0 < tol) :
    implied_vol target_price S K T r q option seed tol (m + 1) = .ok seed := by
  have hmax : max (1e-6:ℝ) seed = seed := max_eq_right hseed
  have hmax2 : max (1e-12:ℝ) seed = seed :=
    max_eq_right (le_trans (by norm_num) hseed)
  have hnp : newtonPhase target_price S K T r q option tol seed (m + 1) =
      .ok (some seed) := by
    rw [newtonPhase_succ, hp]
    simp only [sub_self, abs_zero]
    rw [if_pos htol, hmax2]
  simp only [implied_vol, hmax, hnp]

/-! ### Concrete evaluations used by witnesses and counterexamples -/

lemma callValue_ten : callValue 1 1 1 0 10 0 = Phi 5 - Phi (-5) := by
  simp only [callValue, d1f]
  norm_num [Real.sqrt_one, Real.log_one, Real.exp_zero]

/-! ### Claim theorems -/

/-- C1: for strictly positive S, K, T, sigma, `bs_price` returns the
Black-Scholes-Merton closed form: with `d1 = (ln(S/K) + (r-q+0.5 sigma^2)T) /
(sigma sqrt T)`, `d2 = d1 - sigma sqrt T`, `discR = exp(-rT)`,
`discQ = exp(-qT)`, a call prices to `S discQ Phi(d1) - K discR Phi(d2)` and
a put to `K discR Phi(-d2) - S discQ Phi(-d1)`. -/
theorem price_closed_form (S K T r sigma q : ℝ) (hS : 0 < S) (hK : 0 < K)
    (hT : 0 < T) (hsig : 0 < sigma) :
    bs_price S K T r sigma q "call" =
      .ok (S * Real.exp (-q * T) *
            Phi ((Real.log (S / K) + (r - q + 0.5 * sigma * sigma) * T) / (sigma * Real.sqrt T))
          - K * Real.exp (-r * T) *
            Phi ((Real.log (S / K) + (r - q + 0.5 * sigma * sigma) * T) / (sigma * Real.sqrt T)
              - sigma * Real.sqrt T)) ∧
    bs_price S K T r sigma q "put" =
      .ok (K * Real.exp (-r * T) *
            Phi (-((Real.log (S / K) + (r - q + 0.5 * sigma * sigma) * T) / (sigma * Real.sqrt T)
              - sigma * Real.sqrt T))
          - S * Real.exp (-q * T) *
            Phi (-((Real.log (S / K) + (r - q + 0.5 * sigma * sigma) * T) / (sigma * Real.sqrt T)))) := by
  constructor
  · rw [bs_price_call S K T r sigma q hS hK hT hsig]
    simp only [callValue, d1f]
  · rw [bs_price_put S K T r sigma q hS hK hT hsig]
    simp only [putValue, d1f]

/-- Witness for C1 at S = K = T = sigma = 1, r = q = 0. -/
theorem price_closed_form_witness :
    (0:ℝ) < 1 ∧
    (bs_price 1 1 1 0 1 0 "call" =
      .ok ((1:ℝ) * Real.exp (-0 * 1) *
            Phi ((Real.log (1 / 1) + (0 - 0 + 0.5 * 1 * 1) * 1) / (1 * Real.sqrt 1))
          - 1 * Real.exp (-0 * 1) *
            Phi ((Real.log (1 / 1) + (0 - 0 + 0.5 * 1 * 1) * 1) / (1 * Real.sqrt 1)
              - 1 * Real.sqrt 1)) ∧
    bs_price 1 1 1 0 1 0 "put" =
      .ok ((1:ℝ) * Real.exp (-0 * 1) *
            Phi (-((Real.log (1 / 1) + (0 - 0 + 0.5 * 1 * 1) * 1) / (1 * Real.sqrt 1)
              - 1 * Real.sqrt 1))
          - 1 * Real.exp (-0 * 1) *
            Phi (-((Real.log (1 / 1) + (0 - 0 + 0.5 * 1 * 1) * 1) / (1 * Real.sqrt 1))))) :=
  ⟨by norm_num,
    price_closed_form 1 1 1 0 1 0 (by norm_num) (by norm_num) (by norm_num) (by norm_num)⟩

/-- C4: any input with a non-positive S, K, T or sigma makes both
`bs_price` and `bs_greeks` fail with the shared validation-gate error,
with no pricing formula evaluated and no other outcome possible. -/
theorem invalid_input_rejected (S K T r sigma q : ℝ) (option : String)
    (h : S ≤ 0 ∨ K ≤ 0 ∨ T ≤ 0 ∨ sigma ≤ 0) :
    bs_price S K T r sigma q option =
      .error (.valueError "S, K, T, sigma must be > 0.") ∧
    bs_greeks S K T r sigma q option =
      .error (.valueError "S, K, T, sigma must be > 0.") := by
  have hg := d1_d2_of_gate S K T r sigma q h
  exact ⟨by simp only [bs_price, hg], by simp only [bs_greeks, hg]⟩

/-- Witness for C4 at T = 0. -/
theorem invalid_input_rejected_witness :
    ((1:ℝ) ≤ 0 ∨ (1:ℝ) ≤ 0 ∨ (0:ℝ) ≤ 0 ∨ (1:ℝ) ≤ 0) ∧
    (bs_price 1 1 0 0 1 0 "call" =
      .error (.valueError "S, K, T, sigma must be > 0.") ∧
    bs_greeks 1 1 0 0 1 0 "call" =
      .error (.valueError "S, K, T, sigma must be > 0.")) := by
  have h : (1:ℝ) ≤ 0 ∨ (1:ℝ) ≤ 0 ∨ (0:ℝ) ≤ 0 ∨ (1:ℝ) ≤ 0 := by norm_num
  exact ⟨h, invalid_input_rejected 1 1 0 0 1 0 "call" h⟩

/-- C7: exact put-call parity of `bs_price` on valid inputs. -/
theorem put_call_parity (S K T r sigma q pc pp : ℝ) (hS : 0 < S) (hK : 0 < K)
    (hT : 0 < T) (hsig : 0 < sigma)
    (hc : bs_price S K T r sigma q "call" = .ok pc)
    (hp : bs_price S K T r sigma q "put" = .ok pp) :
    pc - pp = S * Real.exp (-q * T) - K * Real.exp (-r * T) := by
  rw [bs_price_call S K T r sigma q hS hK hT hsig] at hc
  rw [bs_price_put S K T r sigma q hS hK hT hsig] at hp
  simp only [Except.ok.injEq] at hc hp
  subst hc
  subst hp
  rw [putValue_eq]
  ring

/-- Witness for C7 at S = K = T = sigma = 1, r = q = 0. -/
theorem put_call_parity_witness :
    (0:ℝ) < 1 ∧
    callValue 1 1 1 0 1 0 - putValue 1 1 1 0 1 0 =
      1 * Real.exp (-0 * 1) - 1 * Real.exp (-0 * 1) :=
  ⟨by norm_num,
    put_call_parity 1 1 1 0 1 0 (callValue 1 1 1 0 1 0) (putValue 1 1 1 0 1 0)
      (by norm_num) (by norm_num) (by norm_num) (by norm_num)
      (bs_price_call 1 1 1 0 1 0 (by norm_num) (by norm_num) (by norm_num) (by norm_num))
      (bs_price_put 1 1 1 0 1 0 (by norm_num) (by norm_num) (by norm_num) (by norm_num))⟩

/-- C8: for fixed S, K, T, r, q with S, K, T positive and either option
type, the price returned by `bs_price` is strictly increasing in sigma
over (0, 5.0]. -/
theorem price_strict_mono_in_sigma (S K T r q sigma1 sigma2 p1 p2 : ℝ)
    (option : String) (hS : 0 < S) (hK : 0 < K) (hT : 0 < T)
    (hopt : option = "call" ∨ option = "put")
    (h1 : sigma1 ∈ Set.Ioc (0:ℝ) 5.0) (h2 : sigma2 ∈ Set.Ioc (0:ℝ) 5.0)
    (hlt : sigma1 < sigma2)
    (hp1 : bs_price S K T r sigma1 q option = .ok p1)
    (hp2 : bs_price S K T r sigma2 q option = .ok p2) :
    p1 < p2 := by
  rcases hopt with h | h <;> subst h
  · rw [bs_price_call S K T r sigma1 q hS hK hT h1.1] at hp1
    rw [bs_price_call S K T r sigma2 q hS hK hT h2.1] at hp2
    simp only [Except.ok.injEq] at hp1 hp2
    subst hp1
    subst hp2
    exact callValue_strictMonoOn S K T r q hS hK hT h1.1 h2.1 hlt
  · rw [bs_price_put S K T r sigma1 q hS hK hT h1.1] at hp1
    rw [bs_price_put S K T r sigma2 q hS hK hT h2.1] at hp2
    simp only [Except.ok.injEq] at hp1 hp2
    subst hp1
    subst hp2
    exact putValue_strictMonoOn S K T r q hS hK hT h1.1 h2.1 hlt

/-- Witness for C8: the call price at sigma = 1 is below the one at
sigma = 2 for S = K = T = 1, r = q = 0. -/
theorem price_strict_mono_in_sigma_witness :
    (0:ℝ) < 1 ∧ (1:ℝ) ∈ Set.Ioc (0:ℝ) 5.0 ∧ (2:ℝ) ∈ Set.Ioc (0:ℝ) 5.0 ∧
    callValue 1 1 1 0 1 0 < callValue 1 1 1 0 2 0 := by
  refine ⟨by norm_num, by norm_num [Set.mem_Ioc], by norm_num [Set.mem_Ioc], ?_⟩
  exact price_strict_mono_in_sigma 1 1 1 0 0 1 2
    (callValue 1 1 1 0 1 0) (callValue 1 1 1 0 2 0) "call"
    (by norm_num) (by norm_num) (by norm_num) (Or.inl rfl)
    (by norm_num [Set.mem_Ioc]) (by norm_num [Set.mem_Ioc]) (by norm_num)
    (bs_price_call 1 1 1 0 1 0 (by norm_num) (by norm_num) (by norm_num) (by norm_num))
    (bs_price_call 1 1 1 0 2 0 (by norm_num) (by norm_num) (by norm_num) (by norm_num))

/-- C2: structure of the Newton phase.  The solver starts the Newton loop
at `max 1e-6 seed` with `max_iter` fuel; fuel 0 falls through to
bisection; a step computes the price, returns `max 1e-12 sigma` when
within tolerance, aborts to bisection (not a final failure) when vega is
below 1e-12, and otherwise recurses on the Newton update clamped into
`[1e-6, 5.0]`. -/
theorem newton_phase_spec (target_price S K T r q seed tol sigma : ℝ)
    (option : String) (n m : Nat) :
    (implied_vol target_price S K T r q option seed tol m =
      match newtonPhase target_price S K T r q option tol (max 1e-6 seed) m with
      | .error e => .error e
      | .ok (some v) => .ok v
      | .ok none => bisect target_price S K T r q option tol 1e-6 5.0 200) ∧
    newtonPhase target_price S K T r q option tol sigma 0 = .ok none ∧
    newtonPhase target_price S K T r q option tol sigma (n + 1) =
      (match bs_price S K T r sigma q option with
       | .error e => .error e
       | .ok price =>
         if |price - target_price| < tol then .ok (some (max 1e-12 sigma))
         else
           match bs_greeks S K T r sigma q option with
           | .error e => .error e
           | .ok g =>
             if g.vega < 1e-12 then .ok none
             else newtonPhase target_price S K T r q option tol
               (min 5.0 (max 1e-6 (sigma - (price - target_price) / g.vega))) n) :=
  ⟨rfl, rfl, rfl⟩

/-- C3: structure of the bisection phase.  It runs only when the Newton
phase returned no value, on the bracket `[1e-6, 5.0]` with exactly 200
iterations; a step takes the midpoint, returns it when within tolerance,
shrinks from above when the price is too high and from below otherwise;
exhausting the fuel returns the final midpoint instead of failing. -/
theorem bisection_phase_spec (target_price S K T r q seed tol lo hi : ℝ)
    (option : String) (n m : Nat) :
    (implied_vol target_price S K T r q option seed tol m =
      match newtonPhase target_price S K T r q option tol (max 1e-6 seed) m with
      | .error e => .error e
      | .ok (some v) => .ok v
      | .ok none => bisect target_price S K T r q option tol 1e-6 5.0 200) ∧
    bisect target_price S K T r q option tol lo hi 0 = .ok (0.5 * (lo + hi)) ∧
    bisect target_price S K T r q option tol lo hi (n + 1) =
      (match bs_price S K T r (0.5 * (lo + hi)) q option with
       | .error e => .error e
       | .ok pmid =>
         if |pmid - target_price| < tol then .ok (0.5 * (lo + hi))
         else if pmid > target_price then
           bisect target_price S K T r q option tol lo (0.5 * (lo + hi)) n
         else
           bisect target_price S K T r q option tol (0.5 * (lo + hi)) hi n) :=
  ⟨rfl, rfl, rfl⟩

/-- Counterexample to C5: with valid numeric inputs, an option string
outside the two recognized tags makes `bs_price` fail at runtime while
`bs_greeks` silently prices it as a put, so price and Greeks do not
behave identically for every representable option value and the failure
mode is runtime-checked rather than eliminated by construction. -/
theorem option_tag_counterexample :
    bs_price 1 1 1 0 1 0 "zzz" = .error (.valueError "option must be call or put") ∧
    (bs_greeks 1 1 1 0 1 0 "zzz").isOk = true ∧
    bs_greeks 1 1 1 0 1 0 "zzz" = bs_greeks 1 1 1 0 1 0 "put" := by
  have hd := d1_d2_of_pos 1 1 1 0 1 0 (by norm_num) (by norm_num) (by norm_num) (by norm_num)
  refine ⟨?_, ?_, ?_⟩
  · simp only [bs_price, hd]
    rw [if_neg (by decide : ¬("zzz":String) = "call"),
      if_neg (by decide : ¬("zzz":String) = "put")]
  · simp only [bs_greeks, hd]
    rw [if_neg (by decide : ¬("zzz":String) = "call")]
    rfl
  · simp only [bs_greeks, hd]
    rw [if_neg (by decide : ¬("zzz":String) = "call"),
      if_neg (by decide : ¬("put":String) = "call")]

/-- C5 (amended): `bs_greeks` succeeds exactly when `bs_price` does for
the two recognized option tags, and on non-positive numeric inputs both
fail with the identical shared validation-gate error. -/
theorem greeks_price_same_gate (S K T r sigma q : ℝ) (option : String)
    (hopt : option = "call" ∨ option = "put") :
    (bs_greeks S K T r sigma q option).isOk = (bs_price S K T r sigma q option).isOk ∧
    ((S ≤ 0 ∨ K ≤ 0 ∨ T ≤ 0 ∨ sigma ≤ 0) →
      bs_price S K T r sigma q option =
        .error (.valueError "S, K, T, sigma must be > 0.") ∧
      bs_greeks S K T r sigma q option =
        .error (.valueError "S, K, T, sigma must be > 0.")) := by
  constructor
  · by_cases h : S ≤ 0 ∨ K ≤ 0 ∨ T ≤ 0 ∨ sigma ≤ 0
    · have hg := d1_d2_of_gate S K T r sigma q h
      simp [bs_price, bs_greeks, hg, Except.isOk, Except.toBool]
    · push_neg at h
      obtain ⟨hS, hK, hT, hsig⟩ := h
      have hd := d1_d2_of_pos S K T r sigma q hS hK hT hsig
      rcases hopt with h | h <;> subst h <;>
        simp [bs_price, bs_greeks, hd, Except.isOk, Except.toBool]
  · intro h
    have hg := d1_d2_of_gate S K T r sigma q h
    exact ⟨by simp only [bs_price, hg], by simp only [bs_greeks, hg]⟩

/-- Witness for the amended C5 at option = call, T = 0. -/
theorem greeks_price_same_gate_witness :
    (("call":String) = "call" ∨ ("call":String) = "put") ∧
    ((bs_greeks 1 1 0 0 1 0 "call").isOk = (bs_price 1 1 0 0 1 0 "call").isOk ∧
      (((1:ℝ) ≤ 0 ∨ (1:ℝ) ≤ 0 ∨ (0:ℝ) ≤ 0 ∨ (1:ℝ) ≤ 0) →
        bs_price 1 1 0 0 1 0 "call" =
          .error (.valueError "S, K, T, sigma must be > 0.") ∧
        bs_greeks 1 1 0 0 1 0 "call" =
          .error (.valueError "S, K, T, sigma must be > 0."))) :=
  ⟨Or.inl rfl, greeks_price_same_gate 1 1 0 0 1 0 "call" (Or.inl rfl)⟩

/-- Counterexample to C6: a seed above the bracket that immediately meets
tolerance is returned unclamped, so `implied_vol` can succeed with a
value outside (0, 5.0]. -/
theorem implied_vol_range_counterexample :
    implied_vol (Phi 5 - Phi (-5)) 1 1 1 0 0 "call" 10 1e-8 1 = .ok 10 ∧
    (10:ℝ) ∉ Set.Ioc (0:ℝ) 5.0 := by
  constructor
  · have hp : bs_price 1 1 1 0 10 0 "call" = .ok (Phi 5 - Phi (-5)) := by
      rw [bs_price_call 1 1 1 0 10 0 (by norm_num) (by norm_num) (by norm_num) (by norm_num)]
      rw [callValue_ten]
    exact implied_vol_first_hit (Phi 5 - Phi (-5)) 1 1 1 0 0 10 1e-8 "call" 0
      (by norm_num) hp (by norm_num)
  · norm_num [Set.mem_Ioc]

/-- C6 (amended): for every seed at most 5.0 (and arbitrary target,
tolerance and iteration budget), any successful result of `implied_vol`
lies in (0, 5.0]; the remaining outcomes are propagated errors. -/
theorem implied_vol_result_in_range (target_price S K T r q seed tol : ℝ)
    (option : String) (max_iter : Nat) (v : ℝ) (hseed : seed ≤ 5.0)
    (hv : implied_vol target_price S K T r q option seed tol max_iter = .ok v) :
    v ∈ Set.Ioc (0:ℝ) 5.0 := by
  unfold implied_vol at hv
  cases hnp : newtonPhase target_price S K T r q option tol (max 1e-6 seed) max_iter with
  | error e => rw [hnp] at hv; simp at hv
  | ok o =>
    rw [hnp] at hv
    cases o with
    | some w =>
      simp only [Except.ok.injEq] at hv
      subst hv
      have hb := newtonPhase_ok_mem target_price S K T r q option tol max_iter
        (max 1e-6 seed) (le_max_left _ _) (max_le (by norm_num) hseed) w hnp
      exact Set.mem_Ioc.mpr ⟨lt_of_lt_of_le (by norm_num) hb.1, hb.2⟩
    | none =>
      have hb := bisect_ok_mem target_price S K T r q option tol 200 1e-6 5.0
        (by norm_num) (by norm_num) (by norm_num) v hv
      exact Set.mem_Ioc.mpr hb

/-- Witness for the amended C6: with seed 1 and a target equal to the
seed price, the solver returns 1, which is in (0, 5.0]. -/
theorem implied_vol_result_in_range_witness :
    (1:ℝ) ≤ 5.0 ∧ (1:ℝ) ∈ Set.Ioc (0:ℝ) 5.0 := by
  have hp : bs_price 1 1 1 0 1 0 "call" = .ok (callValue 1 1 1 0 1 0) :=
    bs_price_call 1 1 1 0 1 0 (by norm_num) (by norm_num) (by norm_num) (by norm_num)
  have hv : implied_vol (callValue 1 1 1 0 1 0) 1 1 1 0 0 "call" 1 1e-8 1 = .ok 1 :=
    implied_vol_first_hit (callValue 1 1 1 0 1 0) 1 1 1 0 0 1 1e-8 "call" 0
      (by norm_num) hp (by norm_num)
  exact ⟨by norm_num,
    implied_vol_result_in_range (callValue 1 1 1 0 1 0) 1 1 1 0 0 1 1e-8 "call" 1 1
      (by norm_num) hv⟩

/-- C9: the solver is structurally bounded: it performs at most
`max_iter + 200` pricing evaluations, hence at most 100 + 200 = 300 with
the default Newton budget of 100. -/
theorem implied_vol_eval_bound (target_price S K T r q seed tol : ℝ)
    (option : String) (max_iter : Nat) :
    impliedVolPriceEvals target_price S K T r q option seed tol max_iter ≤
      max_iter + 200 ∧
    impliedVolPriceEvals target_price S K T r q option seed tol 100 ≤ 300 := by
  have key : ∀ m : Nat,
      impliedVolPriceEvals target_price S K T r q option seed tol m ≤ m + 200 := by
    intro m
    unfold impliedVolPriceEvals
    have h1 := newtonPriceEvals_le target_price S K T r q option tol m (max 1e-6 seed)
    cases newtonPhase target_price S K T r q option tol (max 1e-6 seed) m with
    | error e => dsimp only; omega
    | ok o =>
      cases o with
      | none =>
        dsimp only
        have h2 := bisectPriceEvals_le target_price S K T r q option tol 200 1e-6 5.0
        exact le_trans (Nat.add_le_add h1 h2) (by omega)
      | some w => dsimp only; omega
  exact ⟨key max_iter, key 100⟩

/-- C10: `implied_vol` does no validation of its own; with a non-positive
S, K or T and at least one Newton step, the first pricing evaluation
fails with the shared validation-gate error, which propagates to the
caller for every seed and tolerance. -/
theorem implied_vol_propagates_gate_error (target_price S K T r q seed tol : ℝ)
    (option : String) (max_iter : Nat) (hm : 1 ≤ max_iter)
    (h : S ≤ 0 ∨ K ≤ 0 ∨ T ≤ 0) :
    implied_vol target_price S K T r q option seed tol max_iter =
      .error (.valueError "S, K, T, sigma must be > 0.") := by
  obtain ⟨n, rfl⟩ : ∃ n, max_iter = n + 1 := ⟨max_iter - 1, by omega⟩
  have h4 : S ≤ 0 ∨ K ≤ 0 ∨ T ≤ 0 ∨ (max 1e-6 seed) ≤ 0 := by tauto
  have hgate : bs_price S K T r (max 1e-6 seed) q option =
      .error (.valueError "S, K, T, sigma must be > 0.") := by
    simp only [bs_price, d1_d2_of_gate S K T r (max 1e-6 seed) q h4]
  have hnp : newtonPhase target_price S K T r q option tol (max 1e-6 seed) (n + 1) =
      .error (.valueError "S, K, T, sigma must be > 0.") := by
    rw [newtonPhase_succ, hgate]
  simp only [implied_vol, hnp]

/-- Witness for C10 at T = 0, one Newton step. -/
theorem implied_vol_propagates_gate_error_witness :
    1 ≤ 1 ∧ ((1:ℝ) ≤ 0 ∨ (1:ℝ) ≤ 0 ∨ (0:ℝ) ≤ 0) ∧
    implied_vol 0 1 1 0 0 0 "call" 0.2 1e-8 1 =
      .error (.valueError "S, K, T, sigma must be > 0.") := by
  have h : (1:ℝ) ≤ 0 ∨ (1:ℝ) ≤ 0 ∨ (0:ℝ) ≤ 0 := by norm_num
  exact ⟨le_refl 1, h,
    implied_vol_propagates_gate_error 0 1 1 0 0 0 0.2 1e-8 "call" 1 (le_refl 1) h⟩

end BlackScholes
